import Mathlib

/-!
Shallow embedding of the Connect4 repository (connect4game.py, connect4ai.py).

The board (`GameGrid`) stores its cells as a list of rows of characters,
row 0 being the bottom row, exactly like the Python `data` attribute
(a list of lists of one-character strings).  Python exceptions are modelled
with `Except PyErr`; Python's `None` result is modelled with `Option`;
the float values `math.inf` / `-math.inf` / numbers are modelled with `Val`.
-/

namespace Connect4

/-- Python runtime errors that the embedded code can raise. -/
inductive PyErr where
  | typeError
  | nameError
  | attributeError
  | indexError
  deriving DecidableEq, Repr

/-- Search values: `math.inf`, `-math.inf`, or a finite number
(the only numeric values the code produces are integers). -/
inductive Val where
  | negInf
  | fin (z : Int)
  | posInf
  deriving DecidableEq, Repr

/-- Numeric negation on `Val` (Python unary minus on these values). -/
def Val.neg : Val → Val
  | .negInf => .posInf
  | .fin z => .fin (-z)
  | .posInf => .negInf

/-- Python list indexing `l[i]`: a negative index `i` with `-len ≤ i`
wraps around to `len + i`; any other out-of-range index raises `IndexError`. -/
def pyGet {α : Type} (l : List α) (i : Int) : Except PyErr α :=
  let j : Int := if i < 0 then (l.length : Int) + i else i
  if h : 0 ≤ j ∧ j < (l.length : Int) then
    .ok (l.get ⟨j.toNat, by omega⟩)
  else
    .error .indexError

/-- Python list element assignment `l[i] = a` (same index rules as `pyGet`);
returns the updated list. -/
def pySet {α : Type} (l : List α) (i : Int) (a : α) : Except PyErr (List α) :=
  let j : Int := if i < 0 then (l.length : Int) + i else i
  if 0 ≤ j ∧ j < (l.length : Int) then
    .ok (l.set j.toNat a)
  else
    .error .indexError

/-- `GameGrid.PLAYER_CHARS = ['X','O']`. -/
def PLAYER_CHARS : List Char := ['X', 'O']

/-- `GameGrid.getOpponentChar`: `PLAYER_CHARS[1 - PLAYER_CHARS.index(playerChar)]`.
(For a character outside `PLAYER_CHARS` the Python original raises `ValueError`;
every use in the claims applies it to an actual player character.) -/
def getOpponentChar (playerChar : Char) : Char :=
  PLAYER_CHARS.getD (1 - PLAYER_CHARS.indexOf playerChar) ' '

/-- The board: `data` is the list of rows (row 0 = bottom), each row a list of
cell characters (' ', 'X' or 'O').  `GameGrid.__init__` deep-copies the data it
is given; in this value model a copy is the value itself. -/
structure GameGrid where
  data : List (List Char)
  deriving DecidableEq, Repr

/-- `self.numRows = len(data)`. -/
def numRows (g : GameGrid) : Nat := g.data.length

/-- `self.numCols = len(data[0])`. -/
def numCols (g : GameGrid) : Nat := (g.data.headD []).length

/-- The grid is well-formed: nonempty and rectangular (every row has
`numCols` entries).  Every grid the game constructs satisfies this. -/
def Rect (g : GameGrid) : Prop :=
  g.data ≠ [] ∧ ∀ row ∈ g.data, row.length = numCols g

instance (g : GameGrid) : Decidable (Rect g) := by
  unfold Rect
  infer_instance

/-- The raw cell content at (row `r`, column `c`), Nat indices. -/
def cellNat (g : GameGrid) (r c : Nat) : Char :=
  (g.data.getD r []).getD c ' '

/-- Gravity invariant of reachable boards: inside a column, an empty cell
never has a marker above it (an empty cell propagates upward). -/
def Gravity (g : GameGrid) : Prop :=
  ∀ c ∈ List.range (numCols g), ∀ r1 ∈ List.range (numRows g),
    ∀ r2 ∈ List.range (numRows g),
      r1 ≤ r2 → cellNat g r1 c = ' ' → cellNat g r2 c = ' '

instance (g : GameGrid) : Decidable (Gravity g) := by
  unfold Gravity
  infer_instance

/-- `GameGrid.getMarkerAtLocation`, with the Python `data[r][c]` accesses
modelled exactly (`pyGet`, including negative-index wrap-around): the guard
returns `''` (here `[]`) outside the bounds, otherwise the stored character
(a one-character string, here `[ch]`). -/
def getMarkerAtLocationE (g : GameGrid) (r c : Int) : Except PyErr (List Char) :=
  if r < 0 ∨ (numRows g : Int) ≤ r ∨ c < 0 ∨ (numCols g : Int) ≤ c then
    .ok []
  else do
    let row ← pyGet g.data r
    let ch ← pyGet row c
    return [ch]

/-- Pure form of `getMarkerAtLocation` (on a rectangular grid the guarded
accesses can never raise; `getMarkerAtLocationE_ok` below proves the two
forms agree). -/
def getMarkerAtLocation (g : GameGrid) (r c : Int) : List Char :=
  if r < 0 ∨ (numRows g : Int) ≤ r ∨ c < 0 ∨ (numCols g : Int) ≤ c then
    []
  else
    [(g.data.getD r.toNat []).getD c.toNat ' ']

/-- `GameGrid.checkColumnFull`: `self.data[-1][columnNum] != ' '` — is the top
cell of the column occupied?  (`data[-1]` is the last row; the game never
builds an empty grid, so the Python `IndexError` on `[]` cannot arise and the
`getLastD`/`getD` defaults are never used on well-formed input.) -/
def checkColumnFull (g : GameGrid) (columnNum : Nat) : Bool :=
  decide ((g.data.getLastD []).getD columnNum ' ' ≠ ' ')

/-- `GameGrid.getNonFullColumnIndices`:
`[c for c in range(self.numCols) if not self.checkColumnFull(c)]`. -/
def getNonFullColumnIndices (g : GameGrid) : List Nat :=
  (List.range (numCols g)).filter (fun c => ! checkColumnFull g c)

/-- `GameGrid.checkAllColumnsFull`: `' ' not in self.data[-1]`. -/
def checkAllColumnsFull (g : GameGrid) : Bool :=
  ! (g.data.getLastD []).contains ' '

/-- The loop of `GameGrid.newGridAfterMove`: scan the rows bottom-up; at each
row, read `data[row][columnToPlayIn]` (Python indexing); at the first row whose
cell is `' '`, assign the player's marker there and return the updated rows.
Falling off the end of the loop is Python's implicit `return None`. -/
def dropLoop (playerChar : Char) (columnToPlayIn : Int) :
    List (List Char) → Except PyErr (Option (List (List Char)))
  | [] => .ok none
  | row :: rest => do
      let ch ← pyGet row columnToPlayIn
      if ch = ' ' then
        let row2 ← pySet row columnToPlayIn playerChar
        return some (row2 :: rest)
      else
        let r ← dropLoop playerChar columnToPlayIn rest
        return r.map (fun rs => row :: rs)

/-- `GameGrid.newGridAfterMove`: build a new grid from a deep copy of the data
(a value copy here) and place the marker in the first empty cell of the
column; `Option.none` is Python's `None` fall-through result. -/
def newGridAfterMove (g : GameGrid) (playerChar : Char) (columnToPlayIn : Int) :
    Except PyErr (Option GameGrid) :=
  (dropLoop playerChar columnToPlayIn g.data).map (fun r => r.map GameGrid.mk)

/-- Python `range(a, b)` over integers. -/
def intRange (a b : Int) : List Int :=
  (List.range (b - a).toNat).map (fun i => a + Int.ofNat i)

/-- `GameGrid.getRowStrings`: each row joined into a string (a string is a
list of characters here, so each row is its own string). -/
def getRowStrings (g : GameGrid) : List (List Char) := g.data

/-- `GameGrid.getColumnStrings`:
`"".join([self.data[r][c] for r in range(self.numRows)])` for each column. -/
def getColumnStrings (g : GameGrid) : List (List Char) :=
  (List.range (numCols g)).map
    (fun c => (List.range (numRows g)).map (fun r => (g.data.getD r []).getD c ' '))

/-- One string of the first diagonal family of `GameGrid.getDiagonalStrings`:
`"".join([self.getMarkerAtLocation(x+diag,x) for x in range(max(numRows,numCols))])`
(out-of-bounds cells contribute the empty string). -/
def diag1String (g : GameGrid) (diag : Int) : List Char :=
  ((List.range (max (numRows g) (numCols g))).map
    (fun (x : Nat) => getMarkerAtLocation g ((x : Int) + diag) ((x : Int)))).flatten

/-- One string of the second diagonal family of `GameGrid.getDiagonalStrings`:
`"".join([self.getMarkerAtLocation((self.numCols-x)+diag,x) for x in range(...)])`. -/
def diag2String (g : GameGrid) (diag : Int) : List Char :=
  ((List.range (max (numRows g) (numCols g))).map
    (fun (x : Nat) => getMarkerAtLocation g ((numCols g : Int) - (x : Int) + diag)
      ((x : Int)))).flatten

/-- `GameGrid.getDiagonalStrings`: the first family ranges over
`range(-numCols+1, numRows)`, the second over `range(-numCols, numRows-1)`. -/
def getDiagonalStrings (g : GameGrid) : List (List Char) :=
  (intRange (-(numCols g : Int) + 1) (numRows g)).map (diag1String g)
    ++ (intRange (-(numCols g : Int)) ((numRows g : Int) - 1)).map (diag2String g)

/-- `GameGrid.getAllDirectionStrings` (the per-instance memoization of the
Python original is a pure caching optimization with no observable effect). -/
def getAllDirectionStrings (g : GameGrid) : List (List Char) :=
  getRowStrings g ++ getColumnStrings g ++ getDiagonalStrings g

/-- Recursion of Python `s.count(pat)` (non-overlapping occurrences,
searching left to right and skipping past each match), made structural on a
fuel bound so that it evaluates by kernel reduction; any `fuel > len(s)`
gives the count. -/
def countOccAux (pat : List Char) : Nat → List Char → Nat
  | 0, _ => 0
  | _ + 1, [] => if pat.length = 0 then 1 else 0
  | fuel + 1, a :: t =>
      if pat.length = 0 then (a :: t).length + 1
      else if (a :: t).take pat.length = pat then
        1 + countOccAux pat fuel ((a :: t).drop pat.length)
      else
        countOccAux pat fuel t

/-- Python `s.count(pat)`. -/
def countOcc (pat s : List Char) : Nat :=
  countOccAux pat (s.length + 1) s

/-- `GameGrid.checkIfPlayerWon`: the pattern `playerChar * 4` is counted in
every direction string; the player has won iff the total count is positive. -/
def checkIfPlayerWon (g : GameGrid) (playerChar : Char) : Bool :=
  decide (0 < ((getAllDirectionStrings g).map (countOcc (List.replicate 4 playerChar))).sum)

/-- `GameGrid.checkGameOver`. -/
def checkGameOver (g : GameGrid) : Bool :=
  checkAllColumnsFull g
    || checkIfPlayerWon g (PLAYER_CHARS.getD 0 ' ')
    || checkIfPlayerWon g (PLAYER_CHARS.getD 1 ' ')

/-- `makeEmptyGrid`. -/
def makeEmptyGrid (nRows nCols : Nat) : GameGrid :=
  ⟨List.replicate nRows (List.replicate nCols ' ')⟩

/-- The 6×7 starting board of `main`. -/
def grid0 : GameGrid := makeEmptyGrid 6 7

/-- `GameState`: the grid, whose turn it is, and the `bestAction` attribute.
`bestAction` is `none` when `__init__` left the attribute unset (full grid);
reading it then is an `AttributeError`. -/
structure GameState where
  grid : GameGrid
  currentPlayerChar : Char
  bestAction : Option Nat
  deriving DecidableEq, Repr

/-- `GameState.__init__`: when the grid is not completely full, `bestAction`
is initialized to `random.choice(grid.getNonFullColumnIndices())`.  The
unseeded random draw is modelled by the oracle `pick`, which stands for one
possible outcome of `random.choice` on the given list.  (The class-wide
`totalNodesCreated` tally has no effect on any value and is not modelled.) -/
def GameState.init (grid : GameGrid) (currentPlayerChar : Char)
    (pick : List Nat → Nat) : GameState :=
  { grid := grid
    currentPlayerChar := currentPlayerChar
    bestAction :=
      if checkAllColumnsFull grid then none
      else some (pick (getNonFullColumnIndices grid)) }

/-- `GameState._getLegalActions`. -/
def GameState.getLegalActions (s : GameState) : List Nat :=
  getNonFullColumnIndices s.grid

/-- `GameState.getActionsAndSuccessors`: pairs each legal action with
`GameState(self.grid.newGridAfterMove(...), opponent)`.  If `newGridAfterMove`
returned `None` (never for a legal action), the successor's `__init__` would
call a method on `None`: `AttributeError`. -/
def GameState.getActionsAndSuccessors (s : GameState) (pick : List Nat → Nat) :
    Except PyErr (List (Nat × GameState)) :=
  s.getLegalActions.mapM (fun (action : Nat) => do
    match ← newGridAfterMove s.grid s.currentPlayerChar (Int.ofNat action) with
    | some g2 => pure (action, GameState.init g2 (getOpponentChar s.currentPlayerChar) pick)
    | none => throw .attributeError)

/-- `GameState.getBestAction`: reads the `bestAction` attribute. -/
def GameState.getBestAction (s : GameState) : Except PyErr Nat :=
  match s.bestAction with
  | some a => .ok a
  | none => .error .attributeError

/-- `GameState.isTerminal`. -/
def GameState.isTerminal (s : GameState) : Bool :=
  checkGameOver s.grid

/-- `GameState.heuristicValueForPlayer`: the body is the `TODO` placeholder
`return 0`. -/
def GameState.heuristicValueForPlayer (s : GameState) (playerChar : Char) : Val :=
  .fin 0

/-- `GameState.estimateValueForPlayer`. -/
def GameState.estimateValueForPlayer (s : GameState) (playerChar : Char) : Val :=
  if s.isTerminal then
    if checkIfPlayerWon s.grid playerChar then .posInf
    else if checkIfPlayerWon s.grid (getOpponentChar playerChar) then .negInf
    else .fin 0
  else
    s.heuristicValueForPlayer playerChar

/-- `MiniMaxAIPlayer` (the `totalThinkingTime` float only feeds a print). -/
structure MiniMaxAIPlayer where
  myPlayerChar : Char
  searchDepthLimit : Int

/-- `MiniMaxAIPlayer.getValueOfState`, line by line:
`if (depthLimit == 0) or (gState.isTerminal(self)):` — when `depthLimit != 0`
Python evaluates `gState.isTerminal(self)`, passing a second positional
argument to a one-parameter method: `TypeError`.  When `depthLimit == 0` the
branch short-circuits to true and `return gState.value` reads an attribute
`GameState` never defines: `AttributeError`.  Every call therefore raises. -/
def MiniMaxAIPlayer.getValueOfState (ai : MiniMaxAIPlayer) (gState : GameState)
    (depthLimit : Int) (alpha beta : Val) : Except PyErr Val :=
  if depthLimit = 0 then .error .attributeError else .error .typeError

/-- `MiniMaxAIPlayer.getMaxValue`: `maxVal = alpha`, then for each successor
the loop body evaluates `getMinValue(successor)` — an undefined global name
(it is a method, never a free function): `NameError` on the first iteration.
With no successors the loop is skipped and `maxVal` (= `alpha`) is returned. -/
def MiniMaxAIPlayer.getMaxValue (ai : MiniMaxAIPlayer) (gState : GameState)
    (pick : List Nat → Nat) (depthLimit : Int) (alpha beta : Val) : Except PyErr Val := do
  let succs ← gState.getActionsAndSuccessors pick
  if succs.isEmpty then return alpha else throw .nameError

/-- `MiniMaxAIPlayer.getMinValue`: `minVal = beta`, and the loop body
evaluates the undefined global name `getValueOfState`: `NameError` on the
first iteration; with no successors it returns `beta`. -/
def MiniMaxAIPlayer.getMinValue (ai : MiniMaxAIPlayer) (gState : GameState)
    (pick : List Nat → Nat) (depthLimit : Int) (alpha beta : Val) : Except PyErr Val := do
  let succs ← gState.getActionsAndSuccessors pick
  if succs.isEmpty then return beta else throw .nameError

/-- `MiniMaxAIPlayer.chooseMove`: builds the root `GameState`, calls
`getValueOfState(curState, depthLimit, -inf, inf)`, then returns
`curState.getBestAction()`.  (The `time.clock()` bookkeeping only feeds a
print and is modelled as a no-op.) -/
def MiniMaxAIPlayer.chooseMove (ai : MiniMaxAIPlayer) (grid : GameGrid)
    (pick : List Nat → Nat) : Except PyErr Nat := do
  let curState := GameState.init grid ai.myPlayerChar pick
  let _ ← ai.getValueOfState curState ai.searchDepthLimit Val.negInf Val.posInf
  curState.getBestAction

/-- A store of Python `GameGrid` objects: object identity made explicit, to
state what in-place mutation inside `newGridAfterMove` can and cannot touch.
`store i` is the `data` held by the object with id `i`; ids below `nextId`
are allocated. -/
structure Heap where
  store : Nat → List (List Char)
  nextId : Nat

/-- `newGridAfterMove` on the heap: `GameGrid(self.data)` allocates a fresh
object whose `data` is a deep copy of grid `gid`'s data; the loop then
mutates that fresh object's rows in place (`dropLoop` computes the result of
those writes); the original object `gid` is never written. -/
def newGridAfterMoveH (h : Heap) (gid : Nat) (playerChar : Char)
    (columnToPlayIn : Int) : Heap × Except PyErr (Option Nat) :=
  let h1 : Heap := ⟨Function.update h.store h.nextId (h.store gid), h.nextId + 1⟩
  match dropLoop playerChar columnToPlayIn (h1.store h.nextId) with
  | .error e => (h1, .error e)
  | .ok none => (h1, .ok none)
  | .ok (some data2) => (⟨Function.update h1.store h.nextId data2, h1.nextId⟩, .ok (some h.nextId))

/-- Specification predicate: board `g` contains four consecutive cells of
marker `p` along a row, a column, or a diagonal of either orientation
(rows are counted bottom-up; the fourth disjunct lists the cells of a
falling diagonal left to right). -/
def fourInLine (g : GameGrid) (p : Char) : Prop :=
  ∃ r c : Nat,
    (r < numRows g ∧ c + 4 ≤ numCols g ∧ ∀ j < 4, cellNat g r (c + j) = p) ∨
    (r + 4 ≤ numRows g ∧ c < numCols g ∧ ∀ j < 4, cellNat g (r + j) c = p) ∨
    (r + 4 ≤ numRows g ∧ c + 4 ≤ numCols g ∧ ∀ j < 4, cellNat g (r + j) (c + j) = p) ∨
    (r + 4 ≤ numRows g ∧ c + 4 ≤ numCols g ∧ ∀ j < 4, cellNat g (r + 3 - j) (c + j) = p)

/-! ### Basic facts about the Python indexing model -/

lemma except_bind_error {ε α β : Type} (e : ε) (f : α → Except ε β) :
    (Except.error e >>= f) = Except.error e := rfl

lemma except_bind_ok {ε α β : Type} (a : α) (f : α → Except ε β) :
    (Except.ok (ε := ε) a >>= f) = f a := rfl

lemma pyGet_ok_of_nonneg {α : Type} (l : List α) (i : Int) (h0 : 0 ≤ i)
    (h1 : i.toNat < l.length) :
    pyGet l i = .ok (l.get ⟨i.toNat, h1⟩) := by
  unfold pyGet
  have h2 : ¬ (i < 0) := by omega
  simp only [h2, if_false]
  rw [dif_pos ⟨h0, by omega⟩]

lemma pyGet_nat {α : Type} (l : List α) (c : Nat) (h : c < l.length) :
    pyGet l (c : Int) = .ok (l.get ⟨c, h⟩) := by
  unfold pyGet
  have h1 : ¬ ((c : Int) < 0) := by omega
  simp only [h1, if_false]
  rw [dif_pos ⟨by omega, by omega⟩]
  simp

lemma pyGet_big {α : Type} (l : List α) (i : Int) (h : (l.length : Int) ≤ i) :
    pyGet l i = .error .indexError := by
  unfold pyGet
  have h1 : ¬ (i < 0) := by omega
  simp only [h1, if_false]
  rw [dif_neg (by omega)]

lemma pySet_nat {α : Type} (l : List α) (c : Nat) (a : α) (h : c < l.length) :
    pySet l (c : Int) a = .ok (l.set c a) := by
  unfold pySet
  have h1 : ¬ ((c : Int) < 0) := by omega
  simp only [h1, if_false]
  rw [if_pos ⟨by omega, by omega⟩]
  simp

/-- Sample outcome of `random.choice`: the first element. -/
def pickFirst : List Nat → Nat := fun l => l.headD 0

/-- Sample outcome of `random.choice`: the last element. -/
def pickLast : List Nat → Nat := fun l => l.getLastD 0

/-- Shared fact: `chooseMove` with a nonzero depth limit raises `TypeError`
out of `getValueOfState` before any value or best action is produced. -/
lemma chooseMove_raises_aux (grid : GameGrid) (p : Char) (pick : List Nat → Nat)
    (d : Nat) :
    MiniMaxAIPlayer.chooseMove ⟨p, (d : Int) + 1⟩ grid pick = .error .typeError := by
  have h : ¬ ((d : Int) + 1 = 0) := by omega
  simp [MiniMaxAIPlayer.chooseMove, MiniMaxAIPlayer.getValueOfState, h,
    except_bind_error]

/-- C1: on every board (in particular the empty 6×7 board) and for either
player, `chooseMove` with any depth limit ≥ 1 does not return a member of the
board's legal columns: the very first step of the search,
`gState.isTerminal(self)` inside `getValueOfState`, raises `TypeError`
(extra positional argument), so no column is ever returned. -/
theorem chooseMove_raises_typeError (grid : GameGrid) (p : Char)
    (pick : List Nat → Nat) (d : Nat) :
    MiniMaxAIPlayer.chooseMove ⟨p, (d : Int) + 1⟩ grid pick = .error .typeError :=
  chooseMove_raises_aux grid p pick d

/-- A board on which X to move can complete four-in-a-row by playing column 3. -/
def gridWin : GameGrid :=
  ⟨[['X', 'X', 'X', ' ', ' ', 'O', 'O']] ++ List.replicate 5 (List.replicate 7 ' ')⟩

/-- The result of X playing column 3 on `gridWin`. -/
def gridWinAfter : GameGrid :=
  ⟨[['X', 'X', 'X', 'X', ' ', 'O', 'O']] ++ List.replicate 5 (List.replicate 7 ' ')⟩

/-- C3: on `gridWin`, column 3 is legal and immediately wins for X, yet
`chooseMove` for X at any depth limit ≥ 1 raises `TypeError` instead of
returning 3 (the search crashes before examining any move). -/
theorem chooseMove_ignores_immediate_win :
    3 ∈ getNonFullColumnIndices gridWin ∧
    (newGridAfterMove gridWin 'X' 3 = .ok (some gridWinAfter) ∧
      checkIfPlayerWon gridWinAfter 'X' = true) ∧
    (∀ (pick : List Nat → Nat) (d : Nat),
      MiniMaxAIPlayer.chooseMove ⟨'X', (d : Int) + 1⟩ gridWin pick = .error .typeError) :=
  ⟨by decide, ⟨by rfl, by decide⟩, fun pick d => chooseMove_raises_aux gridWin 'X' pick d⟩

/-- C5: neither the pruning search nor anything it could be compared against
computes a value: `getValueOfState` raises `TypeError` at every nonzero
depth, and `getMaxValue`/`getMinValue` raise `NameError` (undefined global
names `getMinValue`/`getValueOfState`) as soon as there is one successor. -/
theorem alphabeta_never_computes :
    (∀ (pick : List Nat → Nat) (d : Nat) (alpha beta : Val),
      MiniMaxAIPlayer.getValueOfState ⟨'X', (d : Int) + 1⟩
        (GameState.init grid0 'X' pick) ((d : Int) + 1) alpha beta = .error .typeError) ∧
    MiniMaxAIPlayer.getMaxValue ⟨'X', 1⟩ (GameState.init grid0 'X' pickFirst)
      pickFirst 1 Val.negInf Val.posInf = .error .nameError ∧
    MiniMaxAIPlayer.getMinValue ⟨'X', 1⟩ (GameState.init grid0 'O' pickFirst)
      pickFirst 1 Val.negInf Val.posInf = .error .nameError := by
  refine ⟨fun pick d alpha beta => ?_, by rfl, by rfl⟩
  have h : ¬ ((d : Int) + 1 = 0) := by omega
  simp [MiniMaxAIPlayer.getValueOfState, h]

/-- C8 counterexample: the defensive `bestAction` initialization is an
unseeded `random.choice`: under the draw that picks the first legal column it
is 0, under the draw that picks the last it is 6 — not the first legal column
(0) in general; and `chooseMove` itself raises `TypeError`, returning no
column at all. -/
theorem chooseMove_not_deterministic_fallback :
    (GameState.init grid0 'X' pickFirst).bestAction = some 0 ∧
    (GameState.init grid0 'X' pickLast).bestAction = some 6 ∧
    (getNonFullColumnIndices grid0).headD 7 = 0 ∧
    MiniMaxAIPlayer.chooseMove ⟨'X', 1⟩ grid0 pickFirst = .error .typeError := by
  refine ⟨by decide, by decide, by decide, ?_⟩
  have h := chooseMove_raises_aux grid0 'X' pickFirst 0
  simpa using h

/-- C8 amended: `chooseMove` never returns a column (it raises
`AttributeError` at depth limit 0 and `TypeError` otherwise), and the
defensive `bestAction` field is initialized to the unseeded random draw over
the legal columns, not to the first legal column. -/
theorem chooseMove_always_raises (grid : GameGrid) (p : Char)
    (pick : List Nat → Nat) (dl : Int)
    (hnf : checkAllColumnsFull grid = false) :
    MiniMaxAIPlayer.chooseMove ⟨p, dl⟩ grid pick =
      .error (if dl = 0 then PyErr.attributeError else PyErr.typeError) ∧
    (GameState.init grid p pick).bestAction = some (pick (getNonFullColumnIndices grid)) := by
  constructor
  · by_cases h : dl = 0 <;>
      simp [MiniMaxAIPlayer.chooseMove, MiniMaxAIPlayer.getValueOfState, h,
        except_bind_error]
  · simp [GameState.init, hnf]

/-- Witness for `chooseMove_always_raises` on the empty board with the
last-element draw. -/
theorem chooseMove_always_raises_witness :
    checkAllColumnsFull grid0 = false ∧
    (MiniMaxAIPlayer.chooseMove ⟨'X', (1 : Int)⟩ grid0 pickLast =
        .error (if (1 : Int) = 0 then PyErr.attributeError else PyErr.typeError) ∧
      (GameState.init grid0 'X' pickLast).bestAction =
        some (pickLast (getNonFullColumnIndices grid0))) :=
  ⟨by decide, chooseMove_always_raises grid0 'X' pickLast 1 (by decide)⟩

/-- C9: the heuristic evaluator is zero-sum symmetric on every state (both
sides are the placeholder value 0, and `-0 = 0`). -/
theorem heuristic_zero_sum (s : GameState) (p : Char) (hp : p ∈ PLAYER_CHARS)
    (hnt : s.isTerminal = false) :
    s.heuristicValueForPlayer (getOpponentChar p) =
      Val.neg (s.heuristicValueForPlayer p) := by
  simp [GameState.heuristicValueForPlayer, Val.neg]

/-- Witness for `heuristic_zero_sum` on the empty board. -/
theorem heuristic_zero_sum_witness :
    ('X' ∈ PLAYER_CHARS) ∧ (GameState.mk grid0 'X' none).isTerminal = false ∧
    (GameState.mk grid0 'X' none).heuristicValueForPlayer (getOpponentChar 'X') =
      Val.neg ((GameState.mk grid0 'X' none).heuristicValueForPlayer 'X') :=
  ⟨by decide, by decide, heuristic_zero_sum (GameState.mk grid0 'X' none) 'X'
    (by decide) (by decide)⟩

/-- C10: `getMarkerAtLocation` is total and never wraps around: any negative
or too-large index yields `''` (no exception, no Python negative-index
wrap-around), and in-bounds indices yield exactly the stored cell; in all
cases the guarded Python accesses agree with the pure `getMarkerAtLocation`. -/
theorem getMarkerAtLocation_total (g : GameGrid) (hrect : Rect g) (r c : Int) :
    ((r < 0 ∨ (numRows g : Int) ≤ r ∨ c < 0 ∨ (numCols g : Int) ≤ c) →
      getMarkerAtLocationE g r c = .ok []) ∧
    (0 ≤ r → r < (numRows g : Int) → 0 ≤ c → c < (numCols g : Int) →
      getMarkerAtLocationE g r c = .ok [(g.data.getD r.toNat []).getD c.toNat ' ']) ∧
    getMarkerAtLocationE g r c = .ok (getMarkerAtLocation g r c) := by
  have hout : (r < 0 ∨ (numRows g : Int) ≤ r ∨ c < 0 ∨ (numCols g : Int) ≤ c) →
      getMarkerAtLocationE g r c = .ok [] := by
    intro h
    unfold getMarkerAtLocationE
    rw [if_pos h]
  have hin : 0 ≤ r → r < (numRows g : Int) → 0 ≤ c → c < (numCols g : Int) →
      getMarkerAtLocationE g r c = .ok [(g.data.getD r.toNat []).getD c.toNat ' '] := by
    intro h0 h1 h2 h3
    have hguard : ¬ (r < 0 ∨ (numRows g : Int) ≤ r ∨ c < 0 ∨ (numCols g : Int) ≤ c) := by
      omega
    have hr : r.toNat < g.data.length := by
      have hlen : g.data.length = numRows g := rfl
      omega
    unfold getMarkerAtLocationE
    rw [if_neg hguard]
    rw [pyGet_ok_of_nonneg g.data r h0 hr, except_bind_ok]
    have hrow : (g.data.get ⟨r.toNat, hr⟩).length = numCols g :=
      hrect.2 _ (g.data.get_mem _ _)
    have hc : c.toNat < (g.data.get ⟨r.toNat, hr⟩).length := by omega
    rw [pyGet_ok_of_nonneg _ c h2 hc, except_bind_ok]
    rw [List.getD_eq_getElem _ _ hr, List.getD_eq_getElem _ _ (by simpa using hc)]
    simp only [List.get_eq_getElem]
    rfl
  refine ⟨hout, hin, ?_⟩
  by_cases h : r < 0 ∨ (numRows g : Int) ≤ r ∨ c < 0 ∨ (numCols g : Int) ≤ c
  · rw [hout h]
    unfold getMarkerAtLocation
    rw [if_pos h]
  · rw [hin (by omega) (by omega) (by omega) (by omega)]
    unfold getMarkerAtLocation
    rw [if_neg h]

/-- Witness for `getMarkerAtLocation_total` on the empty board at the
out-of-bounds pair `(-1, 2)`. -/
theorem getMarkerAtLocation_total_witness :
    Rect grid0 ∧ getMarkerAtLocationE grid0 (-1) 2 = .ok [] :=
  ⟨by decide, (getMarkerAtLocation_total grid0 (by decide) (-1) 2).1
    (Or.inl (by norm_num))⟩

/-! ### Occurrence counting: `countOcc` is positive iff the pattern occurs -/

lemma sum_pos_iff (l : List Nat) : 0 < l.sum ↔ ∃ x ∈ l, 0 < x := by
  induction l with
  | nil => simp
  | cons a t ih =>
    simp only [List.sum_cons, List.mem_cons]
    constructor
    · intro h
      by_cases ha : 0 < a
      · exact ⟨a, Or.inl rfl, ha⟩
      · have ht : 0 < t.sum := by omega
        obtain ⟨x, hx, hx2⟩ := ih.1 ht
        exact ⟨x, Or.inr hx, hx2⟩
    · rintro ⟨x, hx | hx, hx2⟩
      · subst hx
        omega
      · have ht : 0 < t.sum := ih.2 ⟨x, hx, hx2⟩
        omega

lemma countOccAux_pos_iff (pat : List Char) (hp : pat ≠ []) :
    ∀ (fuel : Nat) (s : List Char), s.length < fuel →
      (0 < countOccAux pat fuel s ↔ ∃ u v, s = u ++ pat ++ v) := by
  have hl : ¬ (pat.length = 0) := by simpa using hp
  intro fuel
  induction fuel with
  | zero => intro s hs; omega
  | succ fuel ih =>
    intro s hs
    match s with
    | [] =>
      simp only [countOccAux, hl, if_false]
      constructor
      · intro h; omega
      · rintro ⟨u, v, huv⟩
        have hlen := congrArg List.length huv
        simp at hlen
        omega
    | a :: t =>
      simp only [countOccAux, hl, if_false]
      by_cases hpre : (a :: t).take pat.length = pat
      · rw [if_pos hpre]
        refine ⟨fun _ => ?_, fun _ => by omega⟩
        refine ⟨[], (a :: t).drop pat.length, ?_⟩
        rw [List.nil_append]
        conv_lhs => rw [← List.take_append_drop pat.length (a :: t)]
        rw [hpre]
      · rw [if_neg hpre]
        have ht : t.length < fuel := by
          simp only [List.length_cons] at hs
          omega
        rw [ih t ht]
        constructor
        · rintro ⟨u, v, huv⟩
          exact ⟨a :: u, v, by simp [huv]⟩
        · rintro ⟨u, v, huv⟩
          match u with
          | [] =>
            exfalso
            apply hpre
            rw [List.nil_append] at huv
            rw [huv]
            exact List.take_left pat v
          | b :: u2 =>
            refine ⟨u2, v, ?_⟩
            simpa using congrArg List.tail huv

lemma countOcc_pos_iff (pat s : List Char) (hp : pat ≠ []) :
    0 < countOcc pat s ↔ ∃ u v, s = u ++ pat ++ v :=
  countOccAux_pos_iff pat hp (s.length + 1) s (by omega)

lemma replicate4_ne_nil (p : Char) : List.replicate 4 p ≠ [] := by
  intro h
  simpa using congrArg List.length h

/-- The win check succeeds iff the winning pattern occurs in some direction
string. -/
lemma checkIfPlayerWon_iff_exists (g : GameGrid) (p : Char) :
    checkIfPlayerWon g p = true ↔
      ∃ s ∈ getAllDirectionStrings g, ∃ u v, s = u ++ List.replicate 4 p ++ v := by
  unfold checkIfPlayerWon
  rw [decide_eq_true_iff, sum_pos_iff]
  constructor
  · rintro ⟨x, hx, hx2⟩
    obtain ⟨s, hs, rfl⟩ := List.mem_map.1 hx
    exact ⟨s, hs, (countOcc_pos_iff _ s (replicate4_ne_nil p)).1 hx2⟩
  · rintro ⟨s, hs, hocc⟩
    exact ⟨countOcc (List.replicate 4 p) s, List.mem_map_of_mem _ hs,
      (countOcc_pos_iff _ s (replicate4_ne_nil p)).2 hocc⟩

/-! ### Runs inside flattened cell lists -/

lemma flatten_map_singleton {β : Type} (h : β → Char) (l : List β) :
    (l.map (fun x => [h x])).flatten = l.map h := by
  induction l with
  | nil => rfl
  | cons a t ih => simp [ih]

lemma map_getD_range (l : List Char) :
    (List.range l.length).map (fun i => l.getD i ' ') = l := by
  apply List.ext_getElem
  · simp
  · intro i h1 h2
    simp only [List.getElem_map, List.getElem_range]
    rw [List.getD_eq_getElem _ _ h2]

/-- A prefix of the flattened singleton cells over `range' a k` is a
`replicate m p` block iff the first `m` cells of the window are `[p]`. -/
lemma runPrefix (f : Nat → List Char) (p : Char) :
    ∀ (m k a : Nat), (∀ x, a ≤ x → x < a + k → ∃ ch, f x = [ch]) →
      ((∃ w, ((List.range' a k).map f).flatten = List.replicate m p ++ w) ↔
        (m ≤ k ∧ ∀ j < m, f (a + j) = [p])) := by
  intro m
  induction m with
  | zero =>
    intro k a hin
    simp
  | succ m ih =>
    intro k a hin
    match k with
    | 0 =>
      simp [List.replicate_succ]
    | k + 1 =>
      obtain ⟨ch, hch⟩ := hin a (Nat.le_refl a) (by omega)
      have hin2 : ∀ x, a + 1 ≤ x → x < a + 1 + k → ∃ ch, f x = [ch] := by
        intro x h1 h2
        exact hin x (by omega) (by omega)
      rw [List.range'_succ, List.map_cons, List.flatten_cons, hch,
        List.replicate_succ]
      simp only [List.singleton_append, List.cons_append, List.nil_append,
        List.cons.injEq, exists_and_left]
      rw [ih k (a + 1) hin2]
      constructor
      · rintro ⟨hcp, hmk, hall⟩
        refine ⟨by omega, ?_⟩
        intro j hj
        match j with
        | 0 =>
          rw [Nat.add_zero, hch, hcp]
        | j + 1 =>
          have hh := hall j (by omega)
          rw [← hh]
          congr 1
          omega
      · rintro ⟨hmk, hall⟩
        have h0 : f a = [p] := by simpa using hall 0 (by omega)
        have hchp : ch = p := by
          rw [hch] at h0
          injection h0
        refine ⟨hchp, by omega, ?_⟩
        intro j hj
        have hh := hall (j + 1) (by omega)
        rw [← hh]
        congr 1
        omega

/-- The pattern `replicate 4 p` occurs in the flattened singleton cells over
`range' a k` iff four consecutive cells inside the window are `[p]`. -/
lemma runIn (f : Nat → List Char) (p : Char) :
    ∀ (k a : Nat), (∀ x, a ≤ x → x < a + k → ∃ ch, f x = [ch]) →
      ((∃ u v, ((List.range' a k).map f).flatten = u ++ List.replicate 4 p ++ v) ↔
        (∃ i, a ≤ i ∧ i + 4 ≤ a + k ∧ ∀ j < 4, f (i + j) = [p])) := by
  have h43 : (List.replicate 4 p : List Char) = p :: List.replicate 3 p := rfl
  intro k
  induction k with
  | zero =>
    intro a hin
    constructor
    · rintro ⟨u, v, huv⟩
      exfalso
      have hlen := congrArg List.length huv
      simp at hlen
      omega
    · rintro ⟨i, h1, h2, _⟩
      exfalso
      omega
  | succ k ih =>
    intro a hin
    obtain ⟨ch, hch⟩ := hin a (Nat.le_refl a) (by omega)
    have hin2 : ∀ x, a + 1 ≤ x → x < a + 1 + k → ∃ ch, f x = [ch] := by
      intro x h1 h2
      exact hin x (by omega) (by omega)
    rw [List.range'_succ, List.map_cons, List.flatten_cons, hch]
    constructor
    · rintro ⟨u, v, huv⟩
      simp only [List.singleton_append] at huv
      match u with
      | [] =>
        rw [List.nil_append, h43] at huv
        simp only [List.cons_append, List.cons.injEq] at huv
        obtain ⟨hcp, hrest⟩ := huv
        obtain ⟨h3k, hall⟩ := (runPrefix f p 3 k (a + 1) hin2).1 ⟨v, hrest⟩
        refine ⟨a, Nat.le_refl a, by omega, ?_⟩
        intro j hj
        match j with
        | 0 => rw [Nat.add_zero, hch, hcp]
        | j + 1 =>
          have hh := hall j (by omega)
          rw [← hh]
          congr 1
          omega
      | b :: u2 =>
        simp only [List.cons_append, List.cons.injEq] at huv
        obtain ⟨i, hi1, hi2, hi3⟩ := (ih (a + 1) hin2).1 ⟨u2, v, huv.2⟩
        exact ⟨i, by omega, by omega, hi3⟩
    · rintro ⟨i, hi1, hi2, hi3⟩
      by_cases hia : i = a
      · subst hia
        have h0 : f i = [p] := by simpa using hi3 0 (by omega)
        have hchp : ch = p := by
          rw [hch] at h0
          injection h0
        obtain ⟨w, hw⟩ := (runPrefix f p 3 k (i + 1) hin2).2 ⟨by omega, by
          intro j hj
          have hh := hi3 (j + 1) (by omega)
          rw [← hh]
          congr 1
          omega⟩
        refine ⟨[], w, ?_⟩
        rw [List.nil_append, h43]
        simp only [List.singleton_append, List.cons_append, List.nil_append]
        rw [hchp, hw]
      · obtain ⟨u, v, huv⟩ := (ih (a + 1) hin2).2 ⟨i, by omega, by omega, hi3⟩
        refine ⟨ch :: u, v, ?_⟩
        simp only [List.singleton_append, List.cons_append, List.nil_append]
        rw [huv]

/-! ### Cells along a line, and trimming a flattened window -/

lemma gml_eq_nil (g : GameGrid) (r c : Int)
    (h : r < 0 ∨ (numRows g : Int) ≤ r ∨ c < 0 ∨ (numCols g : Int) ≤ c) :
    getMarkerAtLocation g r c = [] := by
  unfold getMarkerAtLocation
  rw [if_pos h]

lemma gml_eq_singleton (g : GameGrid) (r c : Int) (h0 : 0 ≤ r)
    (h1 : r < (numRows g : Int)) (h2 : 0 ≤ c) (h3 : c < (numCols g : Int)) :
    getMarkerAtLocation g r c = [cellNat g r.toNat c.toNat] := by
  unfold getMarkerAtLocation cellNat
  rw [if_neg (by omega)]

lemma gml_nat_iff (g : GameGrid) (p : Char) (r c : Nat)
    (h1 : r < numRows g) (h3 : c < numCols g) :
    getMarkerAtLocation g (r : Int) (c : Int) = [p] ↔ cellNat g r c = p := by
  rw [gml_eq_singleton g r c (by omega) (by omega) (by omega) (by omega)]
  simp

lemma flattenRangeSplit (f : Nat → List Char) (N a k : Nat) (hkN : a + k ≤ N)
    (hout : ∀ x, x < N → (x < a ∨ a + k ≤ x) → f x = []) :
    ((List.range N).map f).flatten = ((List.range' a k).map f).flatten := by
  have e1 : List.range' a k ++ List.range' (a + k) (N - a - k)
      = List.range' a ((N - a - k) + k) := List.range'_append_1 a k (N - a - k)
  have e2 : List.range' 0 a ++ List.range' (0 + a) ((N - a - k) + k)
      = List.range' 0 (((N - a - k) + k) + a) := List.range'_append_1 0 a ((N - a - k) + k)
  rw [Nat.zero_add] at e2
  have hN : N = ((N - a - k) + k) + a := by omega
  have hsplit : List.range N
      = List.range' 0 a ++ (List.range' a k ++ List.range' (a + k) (N - a - k)) := by
    rw [List.range_eq_range', e1, e2, ← hN]
  rw [hsplit, List.map_append, List.map_append, List.flatten_append,
    List.flatten_append]
  have h1 : ((List.range' 0 a).map f).flatten = [] := by
    rw [List.flatten_eq_nil_iff]
    intro l hl
    obtain ⟨x, hx, rfl⟩ := List.mem_map.1 hl
    obtain ⟨i, hi, rfl⟩ := List.mem_range'.1 hx
    exact hout _ (by omega) (by omega)
  have h2 : ((List.range' (a + k) (N - a - k)).map f).flatten = [] := by
    rw [List.flatten_eq_nil_iff]
    intro l hl
    obtain ⟨x, hx, rfl⟩ := List.mem_map.1 hl
    obtain ⟨i, hi, rfl⟩ := List.mem_range'.1 hx
    exact hout _ (by omega) (by omega)
  rw [h1, h2, List.nil_append, List.append_nil]

lemma mem_intRange {a b x : Int} : x ∈ intRange a b ↔ a ≤ x ∧ x < b := by
  unfold intRange
  constructor
  · intro hx
    obtain ⟨i, hi, hxe⟩ := List.mem_map.1 hx
    have hi2 : i < (b - a).toNat := List.mem_range.1 hi
    have hie : a + (i : Int) = x := hxe
    omega
  · rintro ⟨h1, h2⟩
    apply List.mem_map.2
    refine ⟨(x - a).toNat, List.mem_range.2 (by omega), ?_⟩
    show a + (((x - a).toNat : Nat) : Int) = x
    omega

/-! ### Per-direction correspondence: pattern in the string ⟷ run of cells -/

lemma row_hasRun_iff (g : GameGrid) (hrect : Rect g) (r : Nat)
    (hr : r < numRows g) (p : Char) :
    (∃ u v, g.data.getD r [] = u ++ List.replicate 4 p ++ v) ↔
      (∃ c, c + 4 ≤ numCols g ∧ ∀ j < 4, cellNat g r (c + j) = p) := by
  have hrl : r < g.data.length := hr
  have hlen : (g.data.getD r []).length = numCols g := by
    rw [List.getD_eq_getElem _ _ hrl]
    exact hrect.2 _ (List.getElem_mem hrl)
  have heq : g.data.getD r []
      = ((List.range' 0 (numCols g)).map
          (fun cc => [(g.data.getD r []).getD cc ' '])).flatten := by
    rw [flatten_map_singleton, ← List.range_eq_range']
    conv_lhs => rw [← map_getD_range (g.data.getD r [])]
    rw [hlen]
  rw [heq, runIn _ p (numCols g) 0 (fun x h1 h2 => ⟨_, rfl⟩)]
  constructor
  · rintro ⟨i, hi0, hi4, hall⟩
    refine ⟨i, by omega, ?_⟩
    intro j hj
    have hh := hall j hj
    simpa [cellNat] using hh
  · rintro ⟨c, hc4, hall⟩
    refine ⟨c, by omega, by omega, ?_⟩
    intro j hj
    have hh := hall j hj
    simpa [cellNat] using hh

lemma col_hasRun_iff (g : GameGrid) (c : Nat) (p : Char) :
    (∃ u v, (List.range (numRows g)).map (fun rr => (g.data.getD rr []).getD c ' ')
        = u ++ List.replicate 4 p ++ v) ↔
      (∃ r, r + 4 ≤ numRows g ∧ ∀ j < 4, cellNat g (r + j) c = p) := by
  have heq : (List.range (numRows g)).map (fun rr => (g.data.getD rr []).getD c ' ')
      = ((List.range' 0 (numRows g)).map
          (fun rr => [(g.data.getD rr []).getD c ' '])).flatten := by
    rw [flatten_map_singleton, List.range_eq_range']
  rw [heq, runIn _ p (numRows g) 0 (fun x h1 h2 => ⟨_, rfl⟩)]
  constructor
  · rintro ⟨i, hi0, hi4, hall⟩
    refine ⟨i, by omega, ?_⟩
    intro j hj
    have hh := hall j hj
    simpa [cellNat] using hh
  · rintro ⟨r, hr4, hall⟩
    refine ⟨r, by omega, by omega, ?_⟩
    intro j hj
    have hh := hall j hj
    simpa [cellNat] using hh

lemma diag1_hasRun_iff (g : GameGrid) (p : Char) (d : Int)
    (hd1 : -(numCols g : Int) + 1 ≤ d) (hd2 : d < (numRows g : Int)) :
    (∃ u v, diag1String g d = u ++ List.replicate 4 p ++ v) ↔
      (∃ r c : Nat, (r : Int) - (c : Int) = d ∧ r + 4 ≤ numRows g ∧
        c + 4 ≤ numCols g ∧ ∀ j < 4, cellNat g (r + j) (c + j) = p) := by
  have hCN : numCols g ≤ max (numRows g) (numCols g) := le_max_right _ _
  have hRN : numRows g ≤ max (numRows g) (numCols g) := le_max_left _ _
  have hm0 : 0 ≤ min ((numCols g) : Int) ((numRows g : Int) - d) :=
    le_min (by omega) (by omega)
  have hma : -d ≤ min ((numCols g) : Int) ((numRows g : Int) - d) :=
    le_min (by omega) (by omega)
  have hm1 : min ((numCols g) : Int) ((numRows g : Int) - d) ≤ (numCols g : Int) :=
    min_le_left _ _
  have hm2 : min ((numCols g) : Int) ((numRows g : Int) - d) ≤ (numRows g : Int) - d :=
    min_le_right _ _
  have hsplit : diag1String g d
      = ((List.range' ((-d).toNat)
            ((min ((numCols g) : Int) ((numRows g : Int) - d)).toNat - (-d).toNat)).map
          (fun (x : Nat) => getMarkerAtLocation g ((x : Int) + d) ((x : Int)))).flatten := by
    unfold diag1String
    apply flattenRangeSplit
    · omega
    · intro x hxN hxout
      apply gml_eq_nil
      rcases min_choice ((numCols g) : Int) ((numRows g : Int) - d) with hc | hc <;> omega
  rw [hsplit, runIn (fun (x : Nat) => getMarkerAtLocation g ((x : Int) + d) ((x : Int))) p
    ((min ((numCols g) : Int) ((numRows g : Int) - d)).toNat - (-d).toNat) ((-d).toNat)
    (fun x h1 h2 => ⟨cellNat g ((x : Int) + d).toNat x, by
      show getMarkerAtLocation g ((x : Int) + d) ((x : Int)) = _
      rw [gml_eq_singleton g _ _ (by omega) (by omega) (by omega) (by omega)]
      have hxx : ((x : Int)).toNat = x := by omega
      rw [hxx]⟩)]
  constructor
  · rintro ⟨i, hi1, hi2, hall⟩
    refine ⟨((i : Int) + d).toNat, i, by omega, by omega, by omega, ?_⟩
    intro j hj
    have hh := hall j hj
    rw [show ((i + j : Nat) : Int) + d = ((((i : Int) + d).toNat + j : Nat) : Int) by omega]
      at hh
    exact (gml_nat_iff g p _ _ (by omega) (by omega)).1 hh
  · rintro ⟨r, c, hrc, hr4, hc4, hall⟩
    refine ⟨c, by omega, by omega, ?_⟩
    intro j hj
    show getMarkerAtLocation g (((c + j : Nat) : Int) + d) ((c + j : Nat) : Int) = [p]
    rw [show ((c + j : Nat) : Int) + d = ((r + j : Nat) : Int) by omega]
    exact (gml_nat_iff g p _ _ (by omega) (by omega)).2 (hall j hj)

lemma diag2_hasRun_iff (g : GameGrid) (p : Char) (d : Int)
    (hd1 : -(numCols g : Int) ≤ d) (hd2 : d < (numRows g : Int) - 1) :
    (∃ u v, diag2String g d = u ++ List.replicate 4 p ++ v) ↔
      (∃ r c : Nat, (r : Int) + 3 + (c : Int) - (numCols g : Int) = d ∧
        r + 4 ≤ numRows g ∧ c + 4 ≤ numCols g ∧
        ∀ j < 4, cellNat g (r + 3 - j) (c + j) = p) := by
  have hCN : numCols g ≤ max (numRows g) (numCols g) := le_max_right _ _
  have hRN : numRows g ≤ max (numRows g) (numCols g) := le_max_left _ _
  have hm0 : 0 ≤ min ((numCols g) : Int) ((numCols g : Int) + d + 1) :=
    le_min (by omega) (by omega)
  have hma : (numCols g : Int) + d - (numRows g : Int) + 1
      ≤ min ((numCols g) : Int) ((numCols g : Int) + d + 1) :=
    le_min (by omega) (by omega)
  have hm1 : min ((numCols g) : Int) ((numCols g : Int) + d + 1) ≤ (numCols g : Int) :=
    min_le_left _ _
  have hm2 : min ((numCols g) : Int) ((numCols g : Int) + d + 1)
      ≤ (numCols g : Int) + d + 1 := min_le_right _ _
  have hsplit : diag2String g d
      = ((List.range' (((numCols g : Int) + d - (numRows g : Int) + 1).toNat)
            ((min ((numCols g) : Int) ((numCols g : Int) + d + 1)).toNat
              - ((numCols g : Int) + d - (numRows g : Int) + 1).toNat)).map
          (fun (x : Nat) => getMarkerAtLocation g ((numCols g : Int) - (x : Int) + d)
            ((x : Int)))).flatten := by
    unfold diag2String
    apply flattenRangeSplit
    · omega
    · intro x hxN hxout
      apply gml_eq_nil
      rcases min_choice ((numCols g) : Int) ((numCols g : Int) + d + 1) with hc | hc <;>
        omega
  rw [hsplit, runIn (fun (x : Nat) => getMarkerAtLocation g
      ((numCols g : Int) - (x : Int) + d) ((x : Int))) p
    ((min ((numCols g) : Int) ((numCols g : Int) + d + 1)).toNat
      - ((numCols g : Int) + d - (numRows g : Int) + 1).toNat)
    (((numCols g : Int) + d - (numRows g : Int) + 1).toNat)
    (fun x h1 h2 => ⟨cellNat g ((numCols g : Int) - (x : Int) + d).toNat x, by
      show getMarkerAtLocation g ((numCols g : Int) - (x : Int) + d) ((x : Int)) = _
      rw [gml_eq_singleton g _ _ (by omega) (by omega) (by omega) (by omega)]
      have hxx : ((x : Int)).toNat = x := by omega
      rw [hxx]⟩)]
  constructor
  · rintro ⟨i, hi1, hi2, hall⟩
    refine ⟨((numCols g : Int) - (i : Int) + d - 3).toNat, i, by omega, by omega,
      by omega, ?_⟩
    intro j hj
    have hh := hall j hj
    rw [show (numCols g : Int) - ((i + j : Nat) : Int) + d
        = ((((numCols g : Int) - (i : Int) + d - 3).toNat + 3 - j : Nat) : Int) by omega]
      at hh
    exact (gml_nat_iff g p _ _ (by omega) (by omega)).1 hh
  · rintro ⟨r, c, hrc, hr4, hc4, hall⟩
    refine ⟨c, by omega, by omega, ?_⟩
    intro j hj
    show getMarkerAtLocation g ((numCols g : Int) - ((c + j : Nat) : Int) + d)
      ((c + j : Nat) : Int) = [p]
    rw [show (numCols g : Int) - ((c + j : Nat) : Int) + d = ((r + 3 - j : Nat) : Int)
      by omega]
    exact (gml_nat_iff g p _ _ (by omega) (by omega)).2 (hall j hj)

/-- The win check agrees with the geometric four-in-a-line predicate. -/
lemma checkIfPlayerWon_iff_aux (g : GameGrid) (p : Char) (hrect : Rect g) :
    checkIfPlayerWon g p = true ↔ fourInLine g p := by
  rw [checkIfPlayerWon_iff_exists]
  unfold getAllDirectionStrings getRowStrings getColumnStrings getDiagonalStrings
  constructor
  · rintro ⟨s, hs, hrun⟩
    rw [List.mem_append] at hs
    rcases hs with hs | hs
    · rw [List.mem_append] at hs
      rcases hs with hs | hs
      · obtain ⟨r, hr, hsr⟩ := List.getElem_of_mem hs
        have hrR : r < numRows g := hr
        have hsr2 : s = g.data.getD r [] := by
          rw [List.getD_eq_getElem _ _ hr, hsr]
        rw [hsr2] at hrun
        obtain ⟨c, hc4, hall⟩ := (row_hasRun_iff g hrect r hrR p).1 hrun
        exact ⟨r, c, Or.inl ⟨hrR, hc4, hall⟩⟩
      · obtain ⟨c, hcmem, hceq⟩ := List.mem_map.1 hs
        have hc : c < numCols g := List.mem_range.1 hcmem
        rw [← hceq] at hrun
        obtain ⟨r, hr4, hall⟩ := (col_hasRun_iff g c p).1 hrun
        exact ⟨r, c, Or.inr (Or.inl ⟨hr4, hc, hall⟩)⟩
    · rw [List.mem_append] at hs
      rcases hs with hs | hs
      · obtain ⟨dd, hdmem, hdeq⟩ := List.mem_map.1 hs
        obtain ⟨hd1, hd2⟩ := mem_intRange.1 hdmem
        rw [← hdeq] at hrun
        obtain ⟨r, c, hrc, hr4, hc4, hall⟩ :=
          (diag1_hasRun_iff g p dd (by omega) (by omega)).1 hrun
        exact ⟨r, c, Or.inr (Or.inr (Or.inl ⟨hr4, hc4, hall⟩))⟩
      · obtain ⟨dd, hdmem, hdeq⟩ := List.mem_map.1 hs
        obtain ⟨hd1, hd2⟩ := mem_intRange.1 hdmem
        rw [← hdeq] at hrun
        obtain ⟨r, c, hrc, hr4, hc4, hall⟩ :=
          (diag2_hasRun_iff g p dd (by omega) (by omega)).1 hrun
        exact ⟨r, c, Or.inr (Or.inr (Or.inr ⟨hr4, hc4, hall⟩))⟩
  · rintro ⟨r, c, hcase⟩
    rcases hcase with ⟨hr, hc4, hall⟩ | ⟨hr4, hc, hall⟩ | ⟨hr4, hc4, hall⟩ |
      ⟨hr4, hc4, hall⟩
    · refine ⟨g.data.getD r [], ?_, (row_hasRun_iff g hrect r hr p).2 ⟨c, hc4, hall⟩⟩
      rw [List.mem_append]
      left
      rw [List.mem_append]
      left
      rw [List.getD_eq_getElem _ _ (show r < g.data.length from hr)]
      exact List.getElem_mem (show r < g.data.length from hr)
    · refine ⟨_, ?_, (col_hasRun_iff g c p).2 ⟨r, hr4, hall⟩⟩
      rw [List.mem_append]
      left
      rw [List.mem_append]
      right
      exact List.mem_map_of_mem _ (List.mem_range.2 hc)
    · refine ⟨diag1String g ((r : Int) - (c : Int)), ?_,
        (diag1_hasRun_iff g p _ (by omega) (by omega)).2 ⟨r, c, rfl, hr4, hc4, hall⟩⟩
      rw [List.mem_append]
      right
      rw [List.mem_append]
      left
      exact List.mem_map_of_mem _ (mem_intRange.2 ⟨by omega, by omega⟩)
    · refine ⟨diag2String g ((r : Int) + 3 + (c : Int) - (numCols g : Int)), ?_,
        (diag2_hasRun_iff g p _ (by omega) (by omega)).2 ⟨r, c, rfl, hr4, hc4, hall⟩⟩
      rw [List.mem_append]
      right
      rw [List.mem_append]
      right
      exact List.mem_map_of_mem _ (mem_intRange.2 ⟨by omega, by omega⟩)

/-- C2: on every rectangular board, `checkIfPlayerWon` is true iff four
consecutive cells of the player's marker lie on some row, column, or
diagonal of either orientation — the string-based check examines every
diagonal offset, not only the central ones. -/
theorem checkIfPlayerWon_correct (g : GameGrid) (p : Char) (hrect : Rect g) :
    checkIfPlayerWon g p = true ↔ fourInLine g p :=
  checkIfPlayerWon_iff_aux g p hrect

/-- Witness for `checkIfPlayerWon_correct` on a concrete winning board. -/
theorem checkIfPlayerWon_correct_witness :
    Rect gridWinAfter ∧
      (checkIfPlayerWon gridWinAfter 'X' = true ↔ fourInLine gridWinAfter 'X') :=
  ⟨by decide, checkIfPlayerWon_correct gridWinAfter 'X' (by decide)⟩

/-- C4: on every rectangular board: in a terminal state the value for `p` is
the win sentinel `+inf` when `p` has four in a line, the loss sentinel `-inf`
when only the opponent does, and exactly 0 otherwise (draw); in a
non-terminal state it is the heuristic value. -/
theorem estimateValue_cases (s : GameState) (p : Char) (hrect : Rect s.grid)
    (hp : p ∈ PLAYER_CHARS) :
    (s.isTerminal = true →
      (fourInLine s.grid p → s.estimateValueForPlayer p = Val.posInf) ∧
      (¬ fourInLine s.grid p → fourInLine s.grid (getOpponentChar p) →
        s.estimateValueForPlayer p = Val.negInf) ∧
      (¬ fourInLine s.grid p → ¬ fourInLine s.grid (getOpponentChar p) →
        s.estimateValueForPlayer p = Val.fin 0)) ∧
    (s.isTerminal = false → s.estimateValueForPlayer p = s.heuristicValueForPlayer p) := by
  unfold GameState.estimateValueForPlayer
  constructor
  · intro ht
    rw [ht]
    refine ⟨?_, ?_, ?_⟩
    · intro h4
      have hw : checkIfPlayerWon s.grid p = true :=
        (checkIfPlayerWon_iff_aux s.grid p hrect).2 h4
      simp [hw]
    · intro h4n h4o
      have hw : checkIfPlayerWon s.grid p = false := by
        rcases hb : checkIfPlayerWon s.grid p with _ | _
        · rfl
        · exact absurd ((checkIfPlayerWon_iff_aux s.grid p hrect).1 hb) h4n
      have hwo : checkIfPlayerWon s.grid (getOpponentChar p) = true :=
        (checkIfPlayerWon_iff_aux s.grid (getOpponentChar p) hrect).2 h4o
      simp [hw, hwo]
    · intro h4n h4on
      have hw : checkIfPlayerWon s.grid p = false := by
        rcases hb : checkIfPlayerWon s.grid p with _ | _
        · rfl
        · exact absurd ((checkIfPlayerWon_iff_aux s.grid p hrect).1 hb) h4n
      have hwo : checkIfPlayerWon s.grid (getOpponentChar p) = false := by
        rcases hb : checkIfPlayerWon s.grid (getOpponentChar p) with _ | _
        · rfl
        · exact absurd ((checkIfPlayerWon_iff_aux s.grid (getOpponentChar p) hrect).1 hb)
            h4on
      simp [hw, hwo]
  · intro ht
    rw [ht]
    simp

/-- Witness for `estimateValue_cases` on a concrete terminal board. -/
theorem estimateValue_cases_witness :
    Rect (GameState.mk gridWinAfter 'O' none).grid ∧ ('X' ∈ PLAYER_CHARS) ∧
    (((GameState.mk gridWinAfter 'O' none).isTerminal = true →
      (fourInLine (GameState.mk gridWinAfter 'O' none).grid 'X' →
        (GameState.mk gridWinAfter 'O' none).estimateValueForPlayer 'X' = Val.posInf) ∧
      (¬ fourInLine (GameState.mk gridWinAfter 'O' none).grid 'X' →
        fourInLine (GameState.mk gridWinAfter 'O' none).grid (getOpponentChar 'X') →
        (GameState.mk gridWinAfter 'O' none).estimateValueForPlayer 'X' = Val.negInf) ∧
      (¬ fourInLine (GameState.mk gridWinAfter 'O' none).grid 'X' →
        ¬ fourInLine (GameState.mk gridWinAfter 'O' none).grid (getOpponentChar 'X') →
        (GameState.mk gridWinAfter 'O' none).estimateValueForPlayer 'X' = Val.fin 0)) ∧
    ((GameState.mk gridWinAfter 'O' none).isTerminal = false →
      (GameState.mk gridWinAfter 'O' none).estimateValueForPlayer 'X' =
        (GameState.mk gridWinAfter 'O' none).heuristicValueForPlayer 'X')) :=
  ⟨by decide, by decide, estimateValue_cases (GameState.mk gridWinAfter 'O' none) 'X'
    (by decide) (by decide)⟩

/-! ### The drop move: specification of the row scan -/

lemma getLastD_eq_getD {α : Type} :
    ∀ (l : List α) (d : α), l ≠ [] → l.getLastD d = l.getD (l.length - 1) d := by
  intro l
  induction l with
  | nil =>
    intro d h
    exact absurd rfl h
  | cons a t ih =>
    intro d h
    match t with
    | [] => rfl
    | b :: t2 =>
      rw [List.getLastD_cons, ih a (by simp)]
      have hl1 : (b :: t2).length - 1 < (b :: t2).length := by simp
      have hl2 : (a :: b :: t2).length - 1 < (a :: b :: t2).length := by simp
      rw [List.getD_eq_getElem _ _ hl1, List.getD_eq_getElem _ _ hl2]
      have hidx : (a :: b :: t2).length - 1 = ((b :: t2).length - 1) + 1 := by
        simp
      simp only [hidx, List.getElem_cons_succ]

lemma getLastD_append_cons {α : Type} (l1 : List α) (a : α) (l2 : List α)
    (d d2 : α) : (l1 ++ a :: l2).getLastD d = (a :: l2).getLastD d2 := by
  induction l1 generalizing d with
  | nil =>
    rw [List.nil_append, List.getLastD_cons, List.getLastD_cons]
  | cons b t ih =>
    rw [List.cons_append, List.getLastD_cons, ih b]

lemma getLastD_cons_ne_nil {α : Type} (a : α) (l : List α) (hl : l ≠ [])
    (d d2 : α) : (a :: l).getLastD d = l.getLastD d2 := by
  match l with
  | [] => exact absurd rfl hl
  | q :: t => rw [List.getLastD_cons, List.getLastD_cons, List.getLastD_cons]

/-- What the bottom-up scan of `newGridAfterMove` does on a column in range:
either every row is occupied at that column and the scan returns `None`, or
the rows split around the first row holding `' '` there and the scan returns
the rows with that cell assigned. -/
lemma dropLoop_spec (p : Char) (c : Nat) :
    ∀ (rows : List (List Char)) (L : Nat), c < L → (∀ row ∈ rows, row.length = L) →
      (dropLoop p (c : Int) rows = .ok none ∧ ∀ row ∈ rows, row.getD c ' ' ≠ ' ')
    ∨ (∃ pre row post, rows = pre ++ row :: post ∧ (∀ rr ∈ pre, rr.getD c ' ' ≠ ' ')
        ∧ row.getD c ' ' = ' '
        ∧ dropLoop p (c : Int) rows = .ok (some (pre ++ row.set c p :: post))) := by
  intro rows
  induction rows with
  | nil =>
    intro L hc hL
    left
    exact ⟨rfl, by simp⟩
  | cons row rest ih =>
    intro L hc hL
    have hrow : row.length = L := hL row (by simp)
    have hcr : c < row.length := by omega
    have hget : pyGet row (c : Int) = .ok (row.get ⟨c, hcr⟩) := pyGet_nat row c hcr
    have hgd : row.getD c ' ' = row.get ⟨c, hcr⟩ := by
      rw [List.getD_eq_getElem _ _ hcr]
      simp
    by_cases hsp : row.getD c ' ' = ' '
    · right
      refine ⟨[], row, rest, by simp, by simp, hsp, ?_⟩
      show dropLoop p (c : Int) (row :: rest) = _
      unfold dropLoop
      rw [hget, except_bind_ok]
      rw [if_pos (by rw [← hgd]; exact hsp)]
      rw [pySet_nat row c p hcr, except_bind_ok]
      rfl
    · have hrest := ih L hc (fun rr hr => hL rr (by simp [hr]))
      have hne : ¬ (row.get ⟨c, hcr⟩ = ' ') := by
        rw [← hgd]
        exact hsp
      rcases hrest with ⟨hnone, hall⟩ | ⟨pre, row2, post, hrr, hpre, hsp2, hsome⟩
      · left
        constructor
        · show dropLoop p (c : Int) (row :: rest) = _
          unfold dropLoop
          rw [hget, except_bind_ok, if_neg hne, hnone, except_bind_ok]
          rfl
        · intro rr hr
          rcases List.mem_cons.1 hr with hr | hr
          · rw [hr]
            exact hsp
          · exact hall rr hr
      · right
        refine ⟨row :: pre, row2, post, by rw [List.cons_append, hrr], ?_, hsp2, ?_⟩
        · intro rr hr
          rcases List.mem_cons.1 hr with hr | hr
          · rw [hr]
            exact hsp
          · exact hpre rr hr
        · show dropLoop p (c : Int) (row :: rest) = _
          unfold dropLoop
          rw [hget, except_bind_ok, if_neg hne, hsome, except_bind_ok]
          rfl

lemma getD_set_ne {α : Type} (l : List α) (i j : Nat) (a : α) (d : α)
    (hij : j ≠ i) : (l.set i a).getD j d = l.getD j d := by
  by_cases hj : j < l.length
  · rw [List.getD_eq_getElem _ _ (by rw [List.length_set]; exact hj),
      List.getD_eq_getElem _ _ hj]
    exact List.getElem_set_ne (fun h => hij h.symm) _
  · rw [List.getD_eq_default _ _ (by rw [List.length_set]; omega),
      List.getD_eq_default _ _ (by omega)]

lemma player_ne_space (p : Char) (hp : p ∈ PLAYER_CHARS) : p ≠ ' ' := by
  rcases List.mem_cons.1 hp with h | h
  · rw [h]
    decide
  · rcases List.mem_cons.1 h with h | h
    · rw [h]
      decide
    · simp at h

/-- A 6×7 board whose column 0 is completely full. -/
def gridFullCol : GameGrid :=
  ⟨[['X', ' ', ' ', ' ', ' ', ' ', ' '],
    ['O', ' ', ' ', ' ', ' ', ' ', ' '],
    ['X', ' ', ' ', ' ', ' ', ' ', ' '],
    ['O', ' ', ' ', ' ', ' ', ' ', ' '],
    ['X', ' ', ' ', ' ', ' ', ' ', ' '],
    ['O', ' ', ' ', ' ', ' ', ' ', ' ']]⟩

/-- C6 counterexample: applying the drop move to the full column 0 of
`gridFullCol` silently returns Python `None` — it raises nothing (there is no
`InvalidColumn` error anywhere in the code). -/
theorem dropMarker_full_counterexample :
    checkColumnFull gridFullCol 0 = true ∧
    newGridAfterMove gridFullCol 'X' 0 = .ok none :=
  ⟨by decide, by rfl⟩

/-- C6 amended: on a well-formed board obeying gravity, dropping into a full
in-range column returns `None` (no exception); dropping into a column index
at or beyond `numCols` raises `IndexError`; dropping into a non-full in-range
column succeeds and the new board's legal columns are the old ones minus the
played column exactly when that column just became full. -/
theorem newGridAfterMove_contract (g : GameGrid) (p : Char) (c : Nat)
    (hrect : Rect g) (hgrav : Gravity g) (hp : p ∈ PLAYER_CHARS)
    (hc : c < numCols g) :
    (checkColumnFull g c = true → newGridAfterMove g p (c : Int) = .ok none) ∧
    (checkColumnFull g c = false →
      ∃ g2, newGridAfterMove g p (c : Int) = .ok (some g2) ∧
        numCols g2 = numCols g ∧
        getNonFullColumnIndices g2 =
          (if checkColumnFull g2 c = true
           then (getNonFullColumnIndices g).filter (fun c2 => c2 ≠ c)
           else getNonFullColumnIndices g)) ∧
    (∀ cbig : Int, (numCols g : Int) ≤ cbig →
      newGridAfterMove g p cbig = .error .indexError) := by
  have hdata_ne : g.data ≠ [] := hrect.1
  have hdl : g.data.length ≠ 0 := fun h => hdata_ne (List.eq_nil_of_length_eq_zero h)
  have hlastmem : g.data.getLastD [] ∈ g.data := by
    rw [getLastD_eq_getD g.data [] hdata_ne,
      List.getD_eq_getElem _ _ (by omega)]
    exact List.getElem_mem (by omega)
  refine ⟨?_, ?_, ?_⟩
  · intro hfull
    have hfull2 : (g.data.getLastD []).getD c ' ' ≠ ' ' := by
      simpa [checkColumnFull] using hfull
    rcases dropLoop_spec p c g.data (numCols g) hc hrect.2 with
      ⟨hnone, _⟩ | ⟨pre, row, post, hrr, hpre, hsp, hsome⟩
    · unfold newGridAfterMove
      rw [hnone]
      rfl
    · exfalso
      have hlen : g.data.length = pre.length + (post.length + 1) := by
        rw [hrr]
        simp
      have hcell1 : cellNat g pre.length c = ' ' := by
        unfold cellNat
        rw [hrr, List.getD_append_right pre (row :: post) [] pre.length (le_refl _)]
        simpa using hsp
      have hnum : numRows g = g.data.length := rfl
      have hcell2 : cellNat g (numRows g - 1) c ≠ ' ' := by
        unfold cellNat
        have hb : g.data.getD (numRows g - 1) [] = g.data.getLastD [] := by
          rw [getLastD_eq_getD g.data [] hdata_ne, hnum]
        rw [hb]
        exact hfull2
      exact hcell2 (hgrav c (List.mem_range.2 hc) pre.length
        (List.mem_range.2 (by omega))
        (numRows g - 1) (List.mem_range.2 (by omega))
        (by omega) hcell1)
  · intro hfree
    have hfree2 : (g.data.getLastD []).getD c ' ' = ' ' := by
      have := hfree
      unfold checkColumnFull at this
      simpa using this
    rcases dropLoop_spec p c g.data (numCols g) hc hrect.2 with
      ⟨hnone, hall⟩ | ⟨pre, row, post, hrr, hpre, hsp, hsome⟩
    · exact absurd hfree2 (hall _ hlastmem)
    · refine ⟨⟨pre ++ row.set c p :: post⟩, ?_, ?_, ?_⟩
      · unfold newGridAfterMove
        rw [hsome]
        rfl
      · show (((pre ++ row.set c p :: post).headD []).length) = numCols g
        match pre, hrr with
        | [], hrr =>
          have hrowlen : row.length = numCols g := by
            apply hrect.2
            rw [hrr]
            simp
          simp [List.length_set, hrowlen]
        | b :: pre2, hrr =>
          have hblen : b.length = numCols g := by
            apply hrect.2
            rw [hrr]
            simp
          simpa using hblen
      · have hrowlen : row.length = numCols g := by
          apply hrect.2
          rw [hrr]
          simp
        have hcr : c < row.length := by omega
        match post, hrr with
        | q :: post2, hrr =>
          have hlast : (pre ++ row.set c p :: q :: post2).getLastD []
              = g.data.getLastD [] := by
            rw [hrr, getLastD_append_cons pre row (q :: post2) [] [],
              getLastD_append_cons pre (row.set c p) (q :: post2) [] [],
              getLastD_cons_ne_nil row (q :: post2) (by simp) [] [],
              getLastD_cons_ne_nil (row.set c p) (q :: post2) (by simp) [] []]
          have hccf : ∀ x, checkColumnFull ⟨pre ++ row.set c p :: q :: post2⟩ x
              = checkColumnFull g x := by
            intro x
            unfold checkColumnFull
            rw [show (GameGrid.mk (pre ++ row.set c p :: q :: post2)).data
              = pre ++ row.set c p :: q :: post2 from rfl, hlast]
          have hnc : numCols ⟨pre ++ row.set c p :: q :: post2⟩ = numCols g := by
            show (((pre ++ row.set c p :: q :: post2).headD []).length) = numCols g
            match pre, hrr with
            | [], hrr =>
              simp [List.length_set, hrowlen]
            | b :: pre2, hrr =>
              have hblen : b.length = numCols g := by
                apply hrect.2
                rw [hrr]
                simp
              simpa using hblen
          rw [hccf c, hfree, if_neg (by simp)]
          unfold getNonFullColumnIndices
          rw [hnc]
          apply List.filter_congr
          intro x hx
          rw [hccf x]
        | [], hrr =>
          have hlastg : g.data.getLastD [] = row := by
            rw [hrr]
            exact List.getLastD_concat _ _ _
          have hlast2 : (pre ++ [row.set c p]).getLastD [] = row.set c p :=
            List.getLastD_concat _ _ _
          have hsetc : (row.set c p).getD c ' ' = p := by
            rw [List.getD_eq_getElem _ _ (by rw [List.length_set]; exact hcr)]
            exact List.getElem_set_self _
          have hfull2 : checkColumnFull ⟨pre ++ [row.set c p]⟩ c = true := by
            unfold checkColumnFull
            rw [show (GameGrid.mk (pre ++ [row.set c p])).data
              = pre ++ [row.set c p] from rfl, hlast2, hsetc]
            simp [player_ne_space p hp]
          have hccf : ∀ x, x ≠ c → checkColumnFull ⟨pre ++ [row.set c p]⟩ x
              = checkColumnFull g x := by
            intro x hxc
            unfold checkColumnFull
            rw [show (GameGrid.mk (pre ++ [row.set c p])).data
              = pre ++ [row.set c p] from rfl, hlast2, hlastg,
              getD_set_ne row c x p ' ' hxc]
          have hnc : numCols ⟨pre ++ [row.set c p]⟩ = numCols g := by
            show (((pre ++ [row.set c p]).headD []).length) = numCols g
            match pre, hrr with
            | [], hrr =>
              simp [List.length_set, hrowlen]
            | b :: pre2, hrr =>
              have hblen : b.length = numCols g := by
                apply hrect.2
                rw [hrr]
                simp
              simpa using hblen
          rw [hfull2, if_pos rfl]
          unfold getNonFullColumnIndices
          rw [hnc, List.filter_filter]
          apply List.filter_congr
          intro x hx
          by_cases hxc : x = c
          · subst hxc
            simp [hfull2, checkColumnFull] at *
            simp [hsetc, player_ne_space p hp, hlast2]
          · rw [hccf x hxc]
            simp [hxc]
  · intro cbig hcbig
    obtain ⟨fr, rest, hdata⟩ := List.exists_cons_of_ne_nil hdata_ne
    have hfr : fr.length = numCols g := by
      apply hrect.2
      rw [hdata]
      simp
    unfold newGridAfterMove
    rw [hdata]
    unfold dropLoop
    rw [pyGet_big fr cbig (by omega)]
    rfl

/-- Witness for `newGridAfterMove_contract`: dropping X into the non-full
column 0 of the empty board. -/
theorem newGridAfterMove_contract_witness :
    Rect grid0 ∧ Gravity grid0 ∧ ('X' ∈ PLAYER_CHARS) ∧ 0 < numCols grid0 ∧
    ((checkColumnFull grid0 0 = true → newGridAfterMove grid0 'X' ((0 : Nat) : Int) = .ok none) ∧
    (checkColumnFull grid0 0 = false →
      ∃ g2, newGridAfterMove grid0 'X' ((0 : Nat) : Int) = .ok (some g2) ∧
        numCols g2 = numCols grid0 ∧
        getNonFullColumnIndices g2 =
          (if checkColumnFull g2 0 = true
           then (getNonFullColumnIndices grid0).filter (fun c2 => c2 ≠ 0)
           else getNonFullColumnIndices grid0)) ∧
    (∀ cbig : Int, (numCols grid0 : Int) ≤ cbig →
      newGridAfterMove grid0 'X' cbig = .error .indexError)) :=
  ⟨by decide, by decide, by decide, by decide,
    newGridAfterMove_contract grid0 'X' 0 (by decide) (by decide) (by decide)
      (by decide)⟩

/-- A concrete one-object heap holding the empty board. -/
def heap0 : Heap := ⟨fun _ => grid0.data, 1⟩

/-- C7: a legal move allocates a fresh grid object and returns its id; every
object allocated before the move — in particular the moved-from board — still
holds exactly the same data, so every cell of the original board reads the
same before and after the move. -/
theorem move_preserves_snapshots (h : Heap) (gid : Nat) (p : Char) (c : Nat)
    (hgid : gid < h.nextId) (hrect : Rect ⟨h.store gid⟩)
    (hc : c < numCols ⟨h.store gid⟩)
    (hfree : checkColumnFull ⟨h.store gid⟩ c = false) :
    (newGridAfterMoveH h gid p (c : Int)).2 = .ok (some h.nextId) ∧
    (∀ i, i < h.nextId → (newGridAfterMoveH h gid p (c : Int)).1.store i = h.store i) ∧
    (newGridAfterMoveH h gid p (c : Int)).1.nextId = h.nextId + 1 ∧
    (∀ r c2 : Int,
      getMarkerAtLocation ⟨(newGridAfterMoveH h gid p (c : Int)).1.store gid⟩ r c2
        = getMarkerAtLocation ⟨h.store gid⟩ r c2) := by
  have hdata_ne : (h.store gid) ≠ [] := hrect.1
  have hdl : (h.store gid).length ≠ 0 := fun hh =>
    hdata_ne (List.eq_nil_of_length_eq_zero hh)
  have hlastmem : (h.store gid).getLastD [] ∈ h.store gid := by
    rw [getLastD_eq_getD _ [] hdata_ne, List.getD_eq_getElem _ _ (by omega)]
    exact List.getElem_mem (by omega)
  have hfree2 : ((h.store gid).getLastD []).getD c ' ' = ' ' := by
    have hx := hfree
    unfold checkColumnFull at hx
    simpa using hx
  rcases dropLoop_spec p c (h.store gid) (numCols ⟨h.store gid⟩) hc hrect.2 with
    ⟨hnone, hall⟩ | ⟨pre, row, post, hrr, hpre, hsp, hsome⟩
  · exact absurd hfree2 (hall _ hlastmem)
  · have hupd : Function.update h.store h.nextId (h.store gid) h.nextId
        = h.store gid := Function.update_same _ _ _
    have hmain : newGridAfterMoveH h gid p (c : Int)
        = (⟨Function.update (Function.update h.store h.nextId (h.store gid)) h.nextId
              (pre ++ row.set c p :: post), h.nextId + 1⟩,
           .ok (some h.nextId)) := by
      unfold newGridAfterMoveH
      simp only [hupd, hsome]
    have hframe : ∀ i, i < h.nextId →
        (newGridAfterMoveH h gid p (c : Int)).1.store i = h.store i := by
      intro i hi
      rw [hmain]
      show Function.update (Function.update h.store h.nextId (h.store gid)) h.nextId
        (pre ++ row.set c p :: post) i = h.store i
      rw [Function.update_noteq (by omega), Function.update_noteq (by omega)]
    refine ⟨by rw [hmain], hframe, by rw [hmain], ?_⟩
    intro r c2
    rw [hframe gid hgid]

/-- Witness for `move_preserves_snapshots` on a one-object heap with the
empty board. -/
theorem move_preserves_snapshots_witness :
    0 < heap0.nextId ∧ Rect ⟨heap0.store 0⟩ ∧ 0 < numCols ⟨heap0.store 0⟩ ∧
    checkColumnFull ⟨heap0.store 0⟩ 0 = false ∧
    ((newGridAfterMoveH heap0 0 'X' ((0 : Nat) : Int)).2 = .ok (some heap0.nextId) ∧
     (∀ i, i < heap0.nextId →
       (newGridAfterMoveH heap0 0 'X' ((0 : Nat) : Int)).1.store i = heap0.store i) ∧
     (newGridAfterMoveH heap0 0 'X' ((0 : Nat) : Int)).1.nextId = heap0.nextId + 1 ∧
     (∀ r c2 : Int,
       getMarkerAtLocation ⟨(newGridAfterMoveH heap0 0 'X' ((0 : Nat) : Int)).1.store 0⟩
           r c2
         = getMarkerAtLocation ⟨heap0.store 0⟩ r c2)) :=
  ⟨by decide, by decide, by decide, by decide,
    move_preserves_snapshots heap0 0 'X' 0 (by decide) (by decide) (by decide)
      (by decide)⟩

end Connect4
